import Mathlib

/-!
Verification of `enforce_conventional_commits.py` (pre-commit-hooks).

The Python source is shallowly embedded below.  Pure string functions become
Lean functions on `String` / `List Char`.  The regular-expression machinery of
Python's `re` module is embedded as a small executable engine (parser plus
backtracking matcher) covering the construct subset reachable from the
program's pattern strings, with `re.DOTALL` semantics (`.` matches newline)
and Python's end-anchor rule (`$` matches at the end of the string or just
before a trailing newline).  The external `git diff` subprocess call and the
commit-message file contents are modelled as explicit parameters.
-/

set_option maxRecDepth 10000

/-- CONVENTIONAL_TYPES from the source: the two mandatory commit types. -/
def CONVENTIONAL_TYPES : List String := ["feat", "fix"]

/-- DEFAULT_TYPES from the source: the built-in default type vocabulary. -/
def DEFAULT_TYPES : List String :=
  ["ci", "docs", "feat", "fix", "ref", "refactor", "style", "test", "meta", "chore"]

/-- RESULT_SUCCESS exit code. -/
def RESULT_SUCCESS : Nat := 0

/-- RESULT_FAIL exit code. -/
def RESULT_FAIL : Nat := 1

/-- Python `r_types`: join types with pipe to form regex ORs
(`"|".join(types)`). -/
def r_types (types : List String) : String :=
  String.intercalate "|" types

/-- Python `r_scope`: regex string for an optional parenthesised scope. -/
def r_scope (optional : Bool) : String :=
  "(\\([\\w \\/:-]+\\))" ++ (if optional then "?" else "")

/-- Python `r_delim`: regex string for optional breaking change indicator and
colon delimiter. -/
def r_delim : String := "!?:"

/-- Python `r_subject`: regex string for subject line, body, footer. -/
def r_subject : String := " .+"

/-- Python `conventional_types`: merge the mandatory conventional types into
the given list.  The source only prepends CONVENTIONAL_TYPES when the given
list shares no element with it (`set(types) & set(CONVENTIONAL_TYPES) ==
set()`). -/
def conventional_types (types : List String) : List String :=
  if types.all (fun t => !(CONVENTIONAL_TYPES.contains t)) then
    CONVENTIONAL_TYPES ++ types
  else
    types

/-- Python's substring operator `needle in hay` on lists of characters. -/
def isSubstr (needle hay : List Char) : Bool :=
  hay.tails.any (fun t => needle.isPrefixOf t)

/-- Python's substring operator `needle in hay` on strings. -/
def strContains (needle hay : String) : Bool :=
  isSubstr needle.data hay.data

/-- Python `is_special_commit`: checks whether the input message is a merge
or revert commit, by substring containment. -/
def is_special_commit (input : String) : Bool :=
  let merge_strings : List String := ["Merged in ", "Merge branch "]
  let revert_string : String := "This reverts commit "
  (merge_strings.any (fun m => strContains m input)) || strContains revert_string input

/-- The pattern f-string from `is_conventional` (source line 106):
`f"^({r_types(types)}){r_scope(optional_scope)}{r_delim()}{r_subject()}$"`. -/
def mkPattern (types : List String) (optional_scope : Bool) : String :=
  "^(" ++ r_types types ++ ")" ++ r_scope optional_scope ++ r_delim ++ r_subject ++ "$"

/-- Character-class items of the embedded regex engine. -/
inductive CItem where
  | litc : Char → CItem
  | rangec : Char → Char → CItem
  | wcls : CItem
  | scls : CItem
  | dcls : CItem
deriving DecidableEq

/-- Word character for `\w` (ASCII fragment of Python's semantics, which is
all that the program's inputs exercise). -/
def wordChar (c : Char) : Bool :=
  c.isAlpha || c.isDigit || c == '_'

/-- Whitespace character for `\s` and `\S` (Python: space, tab, newline,
carriage return, vertical tab, form feed). -/
def spaceChar (c : Char) : Bool :=
  c == ' ' || c == '\t' || c == '\n' || c == '\r' || c == '\x0b' || c == '\x0c'

/-- Does a single character-class item accept the character. -/
def citemMatch (it : CItem) (c : Char) : Bool :=
  match it with
  | CItem.litc d => c == d
  | CItem.rangec a b => decide (a ≤ c) && decide (c ≤ b)
  | CItem.wcls => wordChar c
  | CItem.scls => spaceChar c
  | CItem.dcls => c.isDigit

/-- Does a (possibly negated) character class accept the character. -/
def classMatch (neg : Bool) (items : List CItem) (c : Char) : Bool :=
  (items.any (fun it => citemMatch it c)) != neg

/-- Abstract syntax of the embedded regex subset. -/
inductive RE where
  | eps : RE
  | litr : Char → RE
  | anyc : RE
  | cls : Bool → List CItem → RE
  | bol : RE
  | eol : RE
  | cat : RE → RE → RE
  | alt : RE → RE → RE
  | star : RE → RE
  | plus : RE → RE
  | quest : RE → RE
deriving DecidableEq

/-- Structural size of a regex, used to compute a sufficient fuel bound. -/
def reSize : RE → Nat
  | RE.cat a b => reSize a + reSize b + 1
  | RE.alt a b => reSize a + reSize b + 1
  | RE.star a => reSize a + 1
  | RE.plus a => reSize a + 1
  | RE.quest a => reSize a + 1
  | _ => 1

/-- Backtracking matcher in continuation-passing style.  `i` is the number of
characters consumed so far (so `^` holds iff `i = 0`), `rest` the remaining
input.  `$` follows Python's non-MULTILINE rule: it holds at the end of input
or just before a single trailing newline.  `.` matches every character,
embedding `re.DOTALL`.  `fuel` only forces termination; it is chosen large
enough by `matchFuel` below. -/
def reMatch : Nat → RE → Nat → List Char → (Nat → List Char → Bool) → Bool
  | 0, _, _, _, _ => false
  | Nat.succ fuel, re, i, rest, k =>
    match re with
    | RE.eps => k i rest
    | RE.litr c =>
      match rest with
      | [] => false
      | d :: rest2 => c == d && k (i + 1) rest2
    | RE.anyc =>
      match rest with
      | [] => false
      | _ :: rest2 => k (i + 1) rest2
    | RE.cls neg items =>
      match rest with
      | [] => false
      | d :: rest2 => classMatch neg items d && k (i + 1) rest2
    | RE.bol => (i == 0) && k i rest
    | RE.eol =>
      (match rest with
       | [] => true
       | [c] => c == '\n'
       | _ => false) && k i rest
    | RE.cat a b => reMatch fuel a i rest (fun j r2 => reMatch fuel b j r2 k)
    | RE.alt a b => reMatch fuel a i rest k || reMatch fuel b i rest k
    | RE.quest a => reMatch fuel a i rest k || k i rest
    | RE.plus a =>
      reMatch fuel a i rest (fun j r2 =>
        reMatch fuel (RE.star a) j r2 k)
    | RE.star a =>
      reMatch fuel a i rest (fun j r2 =>
        (j != i) && reMatch fuel (RE.star a) j r2 k) || k i rest

/-- Fuel sufficient for `reMatch` on the given regex and input. -/
def matchFuel (r : RE) (s : List Char) : Nat :=
  4 * (reSize r + s.length + 8)

/-- `bool(re.compile(pattern, re.DOTALL).match(s))`: does some match of the
regex start at position 0 of `s` (nothing needs to follow the match). -/
def matchTop (r : RE) (s : String) : Bool :=
  reMatch (matchFuel r s.data) r 0 s.data (fun _ _ => true)

/-- Escaped atom outside a character class: `\w`, `\W`, `\s`, `\S`, `\d`,
`\D` become classes; any other escaped character is a literal. -/
def escAtom (c : Char) : RE :=
  if c == 'w' then RE.cls false [CItem.wcls]
  else if c == 'W' then RE.cls true [CItem.wcls]
  else if c == 's' then RE.cls false [CItem.scls]
  else if c == 'S' then RE.cls true [CItem.scls]
  else if c == 'd' then RE.cls false [CItem.dcls]
  else if c == 'D' then RE.cls true [CItem.dcls]
  else RE.litr c

/-- Escaped item inside a character class. -/
def classEsc (c : Char) : Option CItem :=
  if c == 'w' then some CItem.wcls
  else if c == 's' then some CItem.scls
  else if c == 'd' then some CItem.dcls
  else if c == 'W' || c == 'S' || c == 'D' then none
  else some (CItem.litc c)

/-- One atom of a character class body (an escape or a plain character). -/
def parseClassAtom : List Char → Option (CItem × List Char)
  | '\\' :: c :: s2 => (classEsc c).map (fun it => (it, s2))
  | c :: s2 => if c == ']' || c == '\\' then none else some (CItem.litc c, s2)
  | [] => none

/-- Body of a character class, up to the closing bracket.  A dash between two
plain characters denotes a range; a dash directly before the closing bracket
is a literal. -/
def parseClassItems : Nat → List Char → Option (List CItem × List Char)
  | 0, _ => none
  | Nat.succ fuel, s =>
    match s with
    | ']' :: s2 => some ([], s2)
    | _ =>
      match parseClassAtom s with
      | none => none
      | some (it, s2) =>
        match s2 with
        | '-' :: ']' :: s3 => some ([it, CItem.litc '-'], s3)
        | '-' :: s3 =>
          match parseClassAtom s3 with
          | none => none
          | some (it2, s4) =>
            match it, it2 with
            | CItem.litc a, CItem.litc b =>
              match parseClassItems fuel s4 with
              | none => none
              | some (its, s5) => some (CItem.rangec a b :: its, s5)
            | _, _ => none
        | _ =>
          match parseClassItems fuel s2 with
          | none => none
          | some (its, s3) => some (it :: its, s3)

/-- Postfix repetition operators `?`, `+`, `*`; a following `?` (lazy marker)
is consumed, as match existence is unaffected by laziness. -/
def parsePostOps (r : RE) (s : List Char) : RE × List Char :=
  match s with
  | '?' :: '?' :: s2 => (RE.quest r, s2)
  | '?' :: s2 => (RE.quest r, s2)
  | '+' :: '?' :: s2 => (RE.plus r, s2)
  | '+' :: s2 => (RE.plus r, s2)
  | '*' :: '?' :: s2 => (RE.star r, s2)
  | '*' :: s2 => (RE.star r, s2)
  | _ => (r, s)

mutual

/-- Alternation level of the pattern grammar. -/
def parseAltRE : Nat → List Char → Option (RE × List Char)
  | 0, _ => none
  | Nat.succ fuel, s =>
    match parseCatRE fuel s with
    | none => none
    | some (a, s2) =>
      match s2 with
      | '|' :: s3 =>
        match parseAltRE fuel s3 with
        | none => none
        | some (b, s4) => some (RE.alt a b, s4)
      | _ => some (a, s2)

/-- Concatenation level of the pattern grammar. -/
def parseCatRE : Nat → List Char → Option (RE × List Char)
  | 0, _ => none
  | Nat.succ fuel, s =>
    match s with
    | [] => some (RE.eps, [])
    | '|' :: _ => some (RE.eps, s)
    | ')' :: _ => some (RE.eps, s)
    | _ =>
      match parseAtomRE fuel s with
      | none => none
      | some (a, s2) =>
        match parsePostOps a s2 with
        | (a2, s3) =>
          match parseCatRE fuel s3 with
          | none => none
          | some (b, s4) => some (RE.cat a2 b, s4)

/-- Atom level of the pattern grammar: group, class, `.`, anchors, escape or
literal character. -/
def parseAtomRE : Nat → List Char → Option (RE × List Char)
  | 0, _ => none
  | Nat.succ fuel, s =>
    match s with
    | '(' :: s2 =>
      match parseAltRE fuel s2 with
      | none => none
      | some (r, s3) =>
        match s3 with
        | ')' :: s4 => some (r, s4)
        | _ => none
    | '[' :: '^' :: s2 =>
      match parseClassItems fuel s2 with
      | none => none
      | some (items, s3) => some (RE.cls true items, s3)
    | '[' :: s2 =>
      match parseClassItems fuel s2 with
      | none => none
      | some (items, s3) => some (RE.cls false items, s3)
    | '.' :: s2 => some (RE.anyc, s2)
    | '^' :: s2 => some (RE.bol, s2)
    | '$' :: s2 => some (RE.eol, s2)
    | '\\' :: c :: s2 => some (escAtom c, s2)
    | '\\' :: [] => none
    | c :: s2 =>
      if c == '|' || c == ')' || c == '?' || c == '+' || c == '*' then none
      else some (RE.litr c, s2)
    | [] => none

end

/-- Compile a pattern string to a regex, `re.compile` style: `none` models a
`re.error` exception. -/
def parseRE (pat : String) : Option RE :=
  match parseAltRE (4 * pat.data.length + 16) pat.data with
  | some (r, []) => some r
  | _ => none

/-- Python `is_conventional`: special commits are rejected up front, then the
full message is matched against the pattern built from the merged type list
and the scope policy, compiled with `re.DOTALL`.  `none` models the
(unreachable in practice) exception of compiling an invalid pattern. -/
def is_conventional (input : String) (types : List String) (optional_scope : Bool) :
    Option Bool :=
  if is_special_commit input then some false
  else
    let types2 := conventional_types types
    let pattern := mkPattern types2 optional_scope
    match parseRE pattern with
    | some r => some (matchTop r input)
    | none => none

/-- Scanner implementing `re.findall(r"(?<=LABEL)\S+", input)` for a literal
label: at every position whose consumed prefix ends with the label and whose
next character is non-whitespace, the maximal run of non-whitespace
characters is collected, and scanning resumes after it (matches do not
overlap, exactly as `findall` resumes at the end of each match).  `pre` is
the reversed consumed prefix. -/
def findTokens (label : List Char) : Nat → List Char → List Char → List (List Char)
  | 0, _, _ => []
  | Nat.succ fuel, pre, rest =>
    match rest with
    | [] => []
    | c :: rest2 =>
      if label.reverse.isPrefixOf pre && !(spaceChar c) then
        let tok := (c :: rest2).takeWhile (fun d => !(spaceChar d))
        let rest3 := (c :: rest2).dropWhile (fun d => !(spaceChar d))
        tok :: findTokens label fuel (tok.reverse ++ pre) rest3
      else
        findTokens label fuel (c :: pre) rest2

/-- All matches of `(?<=label)\S+` in `input`, as strings. -/
def findallToks (label : String) (input : String) : List String :=
  (findTokens label.data (input.data.length + 1) [] input.data).map
    (fun l => String.mk l)

/-- The labelled path tokens of the commit message, in the fixed category
order of the source's `status_tokens` dict: modified, added, removed,
renamed. -/
def labelTokens (input : String) : List String :=
  findallToks "modified:   " input ++ findallToks "new file:   " input
    ++ findallToks "deleted:    " input ++ findallToks "renamed:    " input

/-- A parsed POSIX path in the manner of `pathlib.PurePosixPath`: an
absolute-path flag and the component list.  Empty and `"."` components are
dropped (repeated slashes collapse, a trailing slash is ignored); `".."`
components are kept, as `pathlib` keeps them.  The `PurePosixPath` special
case of a root spelled with exactly two leading slashes is not modelled; no
input of this development uses it. -/
structure PPath where
  isAbs : Bool
  comps : List String
deriving DecidableEq

/-- Split a character list at every occurrence of a separator character
(Python `str.split(sep)`: empty pieces are kept). -/
def splitOnCharAux (sep : Char) : List Char → List Char → List (List Char)
  | [], acc => [acc.reverse]
  | c :: rest, acc =>
    if c == sep then acc.reverse :: splitOnCharAux sep rest []
    else splitOnCharAux sep rest (c :: acc)

/-- Python `s.split(sep)` for a single-character separator. -/
def splitOnChar (sep : Char) (s : String) : List String :=
  (splitOnCharAux sep s.data []).map (fun l => String.mk l)

/-- Python `Path(s)` (PurePosixPath parsing). -/
def parsePath (s : String) : PPath :=
  let isAbs : Bool := match s.data with | '/' :: _ => true | _ => false
  let comps := (splitOnChar '/' s).filter (fun c => !(c == "") && !(c == "."))
  ⟨isAbs, comps⟩

/-- Python `Path.parents`: the strict ancestors, nearest first, ending at the
root (absolute) or at `Path(".")` (relative). -/
def PPath.parents (p : PPath) : List PPath :=
  ((List.range p.comps.length).reverse).map (fun k => ⟨p.isAbs, p.comps.take k⟩)

/-- Python `str.splitlines` restricted to `\n` line breaks (the only ones a
`git diff --name-only` output contains): split at newlines, with no empty
trailing piece for a trailing newline. -/
def splitlinesAux : List Char → List Char → List (List Char)
  | [], [] => []
  | [], acc => [acc.reverse]
  | c :: rest, acc =>
    if c == '\n' then acc.reverse :: splitlinesAux rest []
    else splitlinesAux rest (c :: acc)

/-- Python `s.splitlines()` (newline-only fragment). -/
def splitlines (s : String) : List String :=
  (splitlinesAux s.data []).map (fun l => String.mk l)

/-- Python `get_modified_filepaths`.  The external `git diff --cached
--name-only --diff-filter=ACDMRT` call is modelled by the parameter
`gitDiff`: `some out` is the stdout of a successful run, `none` a
`CalledProcessError` (the source prints the error and falls through to the
empty list).  The subprocess is consulted only when no labelled token was
found in the message. -/
def get_modified_filepaths (input : String) (gitDiff : Option String) : List PPath :=
  let modified_files := (labelTokens input).map parsePath
  if modified_files.isEmpty then
    match gitDiff with
    | some out => (splitlines out).map parsePath
    | none => []
  else
    modified_files

/-- The source's path test from `main`:
`limited_path in modified_filepath.parents or modified_filepath ==
limited_path`, for some element of the comma-split limit list. -/
def pyPathMatch (limited_paths : List String) (p : PPath) : Bool :=
  limited_paths.any (fun q =>
    let lq := parsePath q
    decide (lq ∈ p.parents) || decide (p = lq))

/-- Python `main` after successful argument parsing and a successful UTF-8
read of the message file.  `limit_to` is `args.limit_to` (`none` when the
flag is absent; the empty list is falsy in Python, so both skip the filter),
`gitDiff` the modelled subprocess (used only inside
`get_modified_filepaths`).  The result is the exit code; `none` models an
uncaught exception from compiling an invalid pattern. -/
def mainCheck (types : List String) (limit_to : Option (List String))
    (optional_scope : Bool) (message : String) (gitDiff : Option String) :
    Option Nat :=
  let checkResult :=
    (is_conventional message types optional_scope).map
      (fun b => if b then RESULT_SUCCESS else RESULT_FAIL)
  match limit_to with
  | some (first :: _) =>
    let modified_filepaths := get_modified_filepaths message gitDiff
    let limited_paths := splitOnChar ',' first
    let matched := modified_filepaths.filter (fun p => pyPathMatch limited_paths p)
    if matched.isEmpty then some RESULT_SUCCESS else checkResult
  | _ => checkResult

theorem contains_conv_iff (t : String) :
    CONVENTIONAL_TYPES.contains t = true ↔ t = "feat" ∨ t = "fix" := by
  simp [CONVENTIONAL_TYPES, List.contains]

/-- C1 counterexample: a caller list containing only "feat" does not gain
"fix"; `conventional_types ["feat"]` is `["feat"]`. -/
theorem C1_counterexample : ¬ ("fix" ∈ conventional_types ["feat"]) := by
  decide

/-- C1 (amended): `conventional_types V` contains both "feat" and "fix"
exactly when V contains neither or both of them (the source prepends the two
mandatory types only when V shares no element with them, so a list containing
exactly one of the two is returned unchanged and lacks the other); the empty
list yields exactly the two mandatory types. -/
theorem C1_amended (V : List String) :
    ((("feat" ∈ conventional_types V) ∧ ("fix" ∈ conventional_types V)) ↔
      (("feat" ∈ V) ↔ ("fix" ∈ V))) ∧
    conventional_types [] = ["feat", "fix"] := by
  refine ⟨?_, by decide⟩
  unfold conventional_types
  by_cases h : V.all (fun t => !(CONVENTIONAL_TYPES.contains t)) = true
  · rw [if_pos h]
    rw [List.all_eq_true] at h
    have hf : ¬ ("feat" ∈ V) := fun hm => by
      have h2 := h _ hm
      have h3 : CONVENTIONAL_TYPES.contains "feat" = true :=
        (contains_conv_iff "feat").mpr (Or.inl rfl)
      rw [h3] at h2
      exact Bool.noConfusion h2
    have hx : ¬ ("fix" ∈ V) := fun hm => by
      have h2 := h _ hm
      have h3 : CONVENTIONAL_TYPES.contains "fix" = true :=
        (contains_conv_iff "fix").mpr (Or.inr rfl)
      rw [h3] at h2
      exact Bool.noConfusion h2
    simp [CONVENTIONAL_TYPES, hf, hx]
  · rw [if_neg h]
    have hex : ("feat" ∈ V) ∨ ("fix" ∈ V) := by
      rw [List.all_eq_true] at h
      push_neg at h
      obtain ⟨t, ht, h2⟩ := h
      have h3 : CONVENTIONAL_TYPES.contains t = true := by
        revert h2
        cases CONVENTIONAL_TYPES.contains t <;> simp
      rcases (contains_conv_iff t).mp h3 with h4 | h4
      · exact Or.inl (h4 ▸ ht)
      · exact Or.inr (h4 ▸ ht)
    constructor
    · rintro ⟨h1, h2⟩
      exact iff_of_true h1 h2
    · intro hiff
      rcases hex with h1 | h1
      · exact ⟨h1, hiff.mp h1⟩
      · exact ⟨hiff.mpr h1, h1⟩

theorem isSubstr_iff (n h : List Char) :
    isSubstr n h = true ↔ ∃ u v, h = u ++ n ++ v := by
  unfold isSubstr
  rw [List.any_eq_true]
  constructor
  · rintro ⟨t, ht, hp⟩
    rw [List.mem_tails] at ht
    rw [List.isPrefixOf_iff_prefix] at hp
    obtain ⟨u, hu⟩ := ht
    obtain ⟨v, hv⟩ := hp
    exact ⟨u, v, by rw [← hu, ← hv, List.append_assoc]⟩
  · rintro ⟨u, v, rfl⟩
    refine ⟨n ++ v, ?_, ?_⟩
    · rw [List.mem_tails]
      exact ⟨u, by rw [List.append_assoc]⟩
    · rw [List.isPrefixOf_iff_prefix]
      exact ⟨v, rfl⟩

/-- C3: `is_special_commit s` is true iff s contains "Merged in ",
"Merge branch ", or "This reverts commit " as a substring anywhere in the
text, and false otherwise. -/
theorem C3_special_commit_iff (s : String) :
    is_special_commit s = true ↔
      ((∃ u v, s.data = u ++ ("Merged in ").data ++ v) ∨
       (∃ u v, s.data = u ++ ("Merge branch ").data ++ v) ∨
       (∃ u v, s.data = u ++ ("This reverts commit ").data ++ v)) := by
  unfold is_special_commit strContains
  simp only [List.any_cons, List.any_nil, Bool.or_false, Bool.or_eq_true]
  rw [isSubstr_iff, isSubstr_iff, isSubstr_iff]
  exact or_assoc

/-- C4: for every message flagged by the special-commit detector,
`is_conventional` returns false for every type vocabulary and scope flag. -/
theorem C4_special_not_conventional (s : String) (T : List String) (o : Bool)
    (h : is_special_commit s = true) :
    is_conventional s T o = some false := by
  unfold is_conventional
  rw [h]
  rfl

/-- C4 witness: a concrete merge-commit message is flagged special and
classified non-conventional. -/
theorem C4_special_not_conventional_witness :
    is_conventional "Merge branch develop" ["fix"] false = some false :=
  C4_special_not_conventional "Merge branch develop" ["fix"] false (by decide)

/-- C2: for every type list T and scope flag o, the pattern built by
`is_conventional` is exactly `^(` + T joined with `|` + `)` + the scope group
`(\([\w \/:-]+\))` + `?` exactly when o is true + `!?:` + one space + `.+` +
`$`; `r_types ["feat","fix"]` is `"feat|fix"`, and `r_scope true` is
`r_scope false` with `?` appended.  The final conjuncts exhibit the compiled
semantics: `.` matches newline (DOTALL) and the match is anchored at the
start of the message. -/
theorem C2_pattern (T : List String) (o : Bool) :
    (mkPattern T o =
      "^(" ++ String.intercalate "|" T ++ ")" ++ "(\\([\\w \\/:-]+\\))"
        ++ (if o then "?" else "") ++ "!?:" ++ " " ++ ".+" ++ "$") ∧
    r_types ["feat", "fix"] = "feat|fix" ∧
    r_scope true = r_scope false ++ "?" ∧
    ((parseRE (mkPattern ["feat", "fix"] true)).map
      (fun r => matchTop r "feat: a\nb") = some true) ∧
    ((parseRE (mkPattern ["feat", "fix"] true)).map
      (fun r => matchTop r "Xfeat: a") = some false) := by
  refine ⟨?_, by decide, by decide, by decide, by decide⟩
  cases o <;>
    simp only [mkPattern, r_types, r_scope, r_delim, r_subject, if_true, if_false,
      String.append_assoc] <;>
    rfl

/-- C5: with vocabulary ["feat","fix"] and optional scope, a conforming
header followed by a multi-line body (including a BREAKING CHANGES footer) is
conventional — the subject match swallows the body — while a non-conforming
header is not rescued by its body. -/
theorem C5_breaking_changes :
    is_conventional "feat: new feature\n\nBREAKING CHANGES: ..." ["feat", "fix"] true
      = some true ∧
    is_conventional "invalid: not valid\n\nBREAKING CHANGES: ..." ["feat", "fix"] true
      = some false := by
  constructor <;> rfl

/-- C10: type vocabulary entries reach the pattern without regex escaping:
with vocabulary ["fe.t"], the message "fezt: x" — whose header type "fezt" is
not in the vocabulary nor equal to "feat" or "fix" — is accepted, because the
dot of "fe.t" acts as a regex wildcard. -/
theorem C10_unescaped_types :
    is_conventional "fezt: x" ["fe.t"] true = some true ∧
    ¬ ("fezt" ∈ (["fe.t", "feat", "fix"] : List String)) := by
  exact ⟨by rfl, by decide⟩

theorem dropWhile_head_false {α : Type} {p : α → Bool} :
    ∀ (l : List α) (c : α) (v : List α), l.dropWhile p = c :: v → p c = false := by
  intro l
  induction l with
  | nil =>
    intro c v h
    exact absurd h (by simp [List.dropWhile])
  | cons a l ih =>
    intro c v h
    cases hpa : p a with
    | true =>
      rw [List.dropWhile_cons, if_pos hpa] at h
      exact ih _ _ h
    | false =>
      rw [List.dropWhile_cons, if_neg (by simp [hpa])] at h
      injection h with h1 h2
      subst h1
      exact hpa

theorem findTokens_sound (label : List Char) :
    ∀ fuel pre rest t, t ∈ findTokens label fuel pre rest →
      t ≠ [] ∧ t.all (fun c => !(spaceChar c)) = true ∧
      ∃ u v, pre.reverse ++ rest = u ++ label ++ t ++ v ∧
        (v = [] ∨ ∃ c v2, v = c :: v2 ∧ spaceChar c = true) := by
  intro fuel
  induction fuel with
  | zero =>
    intro pre rest t h
    simp [findTokens] at h
  | succ fuel ih =>
    intro pre rest t h
    match rest with
    | [] => simp [findTokens] at h
    | c :: rest2 =>
      rw [findTokens] at h
      by_cases hc : (label.reverse.isPrefixOf pre && !(spaceChar c)) = true
      · rw [if_pos hc] at h
        obtain ⟨hlab, hcsp⟩ := Bool.and_eq_true_iff.mp hc
        set p : Char → Bool := fun d => !(spaceChar d) with hp
        have htok : (c :: rest2).takeWhile p = c :: rest2.takeWhile p :=
          List.takeWhile_cons_of_pos hcsp
        rcases List.mem_cons.mp h with rfl | hmem
        · refine ⟨by rw [htok]; exact List.cons_ne_nil _ _, ?_, ?_⟩
          · rw [List.all_eq_true]
            intro x hx
            exact List.mem_takeWhile_imp hx
          · obtain ⟨w, hw⟩ := List.isPrefixOf_iff_prefix.mp hlab
            have hpre : pre.reverse = w.reverse ++ label := by
              rw [← hw, List.reverse_append, List.reverse_reverse]
            refine ⟨w.reverse, (c :: rest2).dropWhile p, ?_, ?_⟩
            · simp [hpre, List.append_assoc]
            · match hdw : (c :: rest2).dropWhile p with
              | [] => exact Or.inl rfl
              | c2 :: v2 =>
                refine Or.inr ⟨c2, v2, rfl, ?_⟩
                have hhead := dropWhile_head_false (c :: rest2) c2 v2 hdw
                simpa [hp] using hhead
        · obtain ⟨hne, hall, u, v, hdec, htr⟩ := ih _ _ _ hmem
          refine ⟨hne, hall, u, v, ?_, htr⟩
          have key : pre.reverse ++ (c :: rest2) =
              (((c :: rest2).takeWhile p).reverse ++ pre).reverse ++
                (c :: rest2).dropWhile p := by
            rw [List.reverse_append, List.reverse_reverse, List.append_assoc]
            congr 1
            exact (List.takeWhile_append_dropWhile (p := p) (l := c :: rest2)).symm
          exact key.trans hdec
      · rw [if_neg hc] at h
        obtain ⟨hne, hall, u, v, hdec, htr⟩ := ih _ _ _ h
        refine ⟨hne, hall, u, v, ?_, htr⟩
        have key : pre.reverse ++ (c :: rest2) = (c :: pre).reverse ++ rest2 := by
          rw [List.reverse_cons, List.append_assoc]
          rfl
        exact key.trans hdec

/-- C6: the touched-path scanner collects exactly the maximal non-whitespace
tokens that follow the four status labels, grouped in the fixed category
order modified, added, removed, renamed, with textual order preserved inside
a category.  First two conjuncts: the claim's example and a multi-token
interleaving exercising the grouping and ordering (for any state of the git
fallback).  Third conjunct: every token returned by the scanner for a label
is a nonempty all-non-whitespace run that occurs immediately after that
label in the scanned text and is maximal (the text continues with whitespace
or ends). -/
theorem C6_touched_paths :
    (∀ g, get_modified_filepaths "modified:   a\nnew file:   b\n" g
        = [parsePath "a", parsePath "b"]) ∧
    (∀ g, get_modified_filepaths
        "new file:   b1\nmodified:   a1\nrenamed:    r1\ndeleted:    d1\nmodified:   a2\nnew file:   b2\n" g
        = [parsePath "a1", parsePath "a2", parsePath "b1", parsePath "b2",
           parsePath "d1", parsePath "r1"]) ∧
    (∀ label fuel pre rest t, t ∈ findTokens label fuel pre rest →
      t ≠ [] ∧ t.all (fun c => !(spaceChar c)) = true ∧
      ∃ u v, pre.reverse ++ rest = u ++ label ++ t ++ v ∧
        (v = [] ∨ ∃ c v2, v = c :: v2 ∧ spaceChar c = true)) :=
  ⟨fun _ => rfl, fun _ => rfl,
   fun label fuel pre rest t h => findTokens_sound label fuel pre rest t h⟩

/-- C6 witness: the scanner characterisation applied to a concrete scan. -/
theorem C6_touched_paths_witness :
    ("a").data ≠ [] ∧
    ("a").data.all (fun c => !(spaceChar c)) = true ∧
    ∃ u v, ([] : List Char).reverse ++ ("modified:   a").data
        = u ++ ("modified:   ").data ++ ("a").data ++ v ∧
      (v = [] ∨ ∃ c v2, v = c :: v2 ∧ spaceChar c = true) :=
  C6_touched_paths.2.2 ("modified:   ").data 20 [] ("modified:   a").data
    ("a").data (by decide)

/-- C7: the git staged-change query is consulted exactly when zero label
matches were found: with zero matches the result is the query's stdout split
into lines in order (a failed query — `none` — degrades to the empty list,
after reporting, rather than aborting); with at least one match the result
does not depend on the git query at all. -/
theorem C7_git_fallback (input : String) (git : Option String) :
    (labelTokens input = [] →
      get_modified_filepaths input git =
        (match git with
         | some out => (splitlines out).map parsePath
         | none => [])) ∧
    (labelTokens input ≠ [] →
      ∀ g2, get_modified_filepaths input git = get_modified_filepaths input g2) := by
  constructor
  · intro h
    unfold get_modified_filepaths
    rw [h]
    rfl
  · intro h g2
    have hne : ((labelTokens input).map parsePath).isEmpty = false := by
      cases hl : labelTokens input with
      | nil => exact absurd hl h
      | cons a l => simp [hl]
    simp [get_modified_filepaths, hne]

/-- C7 witness: a message with no labelled matches falls back to the git
query result, one path per line in order. -/
theorem C7_git_fallback_witness :
    get_modified_filepaths "unmatched_status:   x\n" (some "p\nq\n")
      = (splitlines "p\nq\n").map parsePath :=
  (C7_git_fallback "unmatched_status:   x\n" (some "p\nq\n")).1 (by decide)

/-- The claim's formulation of the path filter test: q is the same path as p
or a proper ancestor directory of p. -/
def properAncestor (q p : PPath) : Prop :=
  q.isAbs = p.isAbs ∧ q.comps <+: p.comps ∧ q.comps ≠ p.comps

instance (q p : PPath) : Decidable (properAncestor q p) := by
  unfold properAncestor
  infer_instance

/-- The claim's formulation of "some touched path falls under some filter
path": equality or proper ancestry for some element of the filter list. -/
def touchMatch (lps : List String) (p : PPath) : Prop :=
  ∃ q ∈ lps, p = parsePath q ∨ properAncestor (parsePath q) p

instance (lps : List String) (p : PPath) : Decidable (touchMatch lps p) := by
  unfold touchMatch
  infer_instance

theorem mem_parents_iff (q p : PPath) : q ∈ p.parents ↔ properAncestor q p := by
  unfold PPath.parents properAncestor
  constructor
  · intro h
    rw [List.mem_map] at h
    obtain ⟨k, hk, rfl⟩ := h
    rw [List.mem_reverse, List.mem_range] at hk
    refine ⟨rfl, List.take_prefix _ _, ?_⟩
    intro he
    have hlen := congrArg List.length he
    simp only [List.length_take] at hlen
    omega
  · rintro ⟨habs, hpre, hne⟩
    rw [List.mem_map]
    refine ⟨q.comps.length, ?_, ?_⟩
    · rw [List.mem_reverse, List.mem_range]
      rcases Nat.lt_or_ge q.comps.length p.comps.length with hlt | hge
      · exact hlt
      · exact absurd (hpre.eq_of_length_le hge) hne
    · have hq := List.prefix_iff_eq_take.mp hpre
      cases q with
      | mk qa qc =>
        simp only at habs hq
        simp [PPath.mk.injEq, habs, ← hq]

theorem pyPathMatch_iff (lps : List String) (p : PPath) :
    pyPathMatch lps p = true ↔ touchMatch lps p := by
  unfold pyPathMatch touchMatch
  rw [List.any_eq_true]
  constructor
  · rintro ⟨q, hq, hb⟩
    rw [Bool.or_eq_true, decide_eq_true_iff, decide_eq_true_iff] at hb
    rcases hb with hb | hb
    · exact ⟨q, hq, Or.inr ((mem_parents_iff _ _).mp hb)⟩
    · exact ⟨q, hq, Or.inl hb⟩
  · rintro ⟨q, hq, hb⟩
    refine ⟨q, hq, ?_⟩
    rw [Bool.or_eq_true, decide_eq_true_iff, decide_eq_true_iff]
    rcases hb with hb | hb
    · exact Or.inr hb
    · exact Or.inl ((mem_parents_iff _ _).mpr hb)

/-- C8: with a non-empty path filter configured, `main` exits 0 without the
classifier's verdict playing any role whenever no touched path equals or
descends from some filter path (taken from the comma-split first token); as
soon as one touched path falls under a filter path, the message is validated
normally and the exit code is the classifier's verdict. -/
theorem C8_limit_filter (T : List String) (o : Bool) (msg : String)
    (git : Option String) (first : String) (rest : List String) :
    ((∀ p ∈ get_modified_filepaths msg git,
        ¬ touchMatch (splitOnChar ',' first) p) →
      mainCheck T (some (first :: rest)) o msg git = some RESULT_SUCCESS) ∧
    ((∃ p ∈ get_modified_filepaths msg git,
        touchMatch (splitOnChar ',' first) p) →
      mainCheck T (some (first :: rest)) o msg git =
        (is_conventional msg T o).map
          (fun b => if b then RESULT_SUCCESS else RESULT_FAIL)) := by
  constructor
  · intro h
    have hfil : (get_modified_filepaths msg git).filter
        (fun p => pyPathMatch (splitOnChar ',' first) p) = [] := by
      rw [List.filter_eq_nil_iff]
      intro p hp hb
      exact h p hp ((pyPathMatch_iff _ _).mp hb)
    unfold mainCheck
    simp [hfil]
  · rintro ⟨p, hp, hm⟩
    have hfil : ((get_modified_filepaths msg git).filter
        (fun p => pyPathMatch (splitOnChar ',' first) p)).isEmpty = false := by
      rw [List.isEmpty_eq_false_iff_exists_mem]
      exact ⟨p, List.mem_filter.mpr ⟨hp, (pyPathMatch_iff _ _).mpr hm⟩⟩
    unfold mainCheck
    simp [hfil]

/-- C8 witness: with filter `/path/to/dir` and a touched file outside it, a
non-conventional message still exits 0. -/
theorem C8_limit_filter_witness :
    mainCheck ["feat", "fix"] (some ["/path/to/dir"]) true "bad commit message"
      (some "/different/path/file.txt\n") = some RESULT_SUCCESS :=
  (C8_limit_filter ["feat", "fix"] true "bad commit message"
    (some "/different/path/file.txt\n") "/path/to/dir" []).1 (by decide)

/-- C9: when `--limit-to` receives several tokens, only the first token is
comma-split into filter paths and every later token is ignored: the program
behaves identically with the tail dropped.  The two concrete conjuncts show
the two halves at work: with limit tokens ["/aa,/bb", "/cc"] a touched file
under "/bb" (from the comma-split first token) triggers normal validation of
a bad message (exit 1), while with limit tokens ["/aa", "/cc"] a touched
file under the second token "/cc" is ignored and the check is skipped
(exit 0). -/
theorem C9_limit_first_token_only :
    (∀ (T : List String) (o : Bool) (msg : String) (git : Option String)
       (first : String) (rest : List String),
      mainCheck T (some (first :: rest)) o msg git =
        mainCheck T (some [first]) o msg git) ∧
    mainCheck ["feat", "fix"] (some ["/aa,/bb", "/cc"]) true "bad commit message"
      (some "/bb/f.txt\n") = some RESULT_FAIL ∧
    mainCheck ["feat", "fix"] (some ["/aa", "/cc"]) true "bad commit message"
      (some "/cc/f.txt\n") = some RESULT_SUCCESS :=
  ⟨fun _ _ _ _ _ _ => rfl, by rfl, by rfl⟩
